import Mathlib

/-!
Shallow embedding of the Katzenpost server provider backend:
the boltdb-backed user database (`boltuserdb.go`), the provider
packet-dispatch pipeline (`provider.go`) and the node key loading
(`nodekey.go`), together with theorems settling the frozen claims.

Byte strings are modelled as `List Nat`, each element a byte value
(`< 256` where byte-level arithmetic matters).
-/

/-- Byte strings (`[]byte` in Go). `none` models a nil slice where the
source distinguishes nil from a present slice. -/
abbrev Bytes := List Nat

/-- ASCII bytes of a string literal, used for bolt bucket and key names. -/
def strBytes (s : String) : Bytes := s.toList.map (fun c => c.toNat)

namespace Subtle

/-- Embedding of Go `crypto/subtle.ConstantTimeByteEq`:
`int((uint32(x^y) - 1) >> 31)`, with the `uint32` wraparound of the
subtraction made explicit as arithmetic modulo `2 ^ 32`. -/
def constantTimeByteEq (x y : Nat) : Nat :=
  (((x ^^^ y) + 2 ^ 32 - 1) % 2 ^ 32) >>> 31

/-- The accumulator loop of `crypto/subtle.ConstantTimeCompare`:
`for i := range x { v |= x[i] ^ y[i] }`. -/
def ctFold (l : List (Nat × Nat)) (v : Nat) : Nat :=
  l.foldl (fun acc p => acc ||| (p.1 ^^^ p.2)) v

/-- Embedding of Go `crypto/subtle.ConstantTimeCompare`: `0` on length
mismatch, otherwise the byte-equality of the OR-accumulated XOR of all
byte pairs — no early exit on a mismatching byte. -/
def constantTimeCompare (x y : Bytes) : Nat :=
  if x.length ≠ y.length then 0
  else constantTimeByteEq (ctFold (x.zip y) 0) 0

/-- `ConstantTimeCompare` instrumented with its loop-iteration count:
the first component is the comparison result, the second the number of
byte positions the loop visits. -/
def constantTimeCompareInstr (x y : Bytes) : Nat × Nat :=
  if x.length ≠ y.length then (0, 0)
  else (constantTimeByteEq (ctFold (x.zip y) 0) 0, (x.zip y).length)

theorem constantTimeByteEq_eq (x y : Nat) (hx : x < 256) (hy : y < 256) :
    constantTimeByteEq x y = if x = y then 1 else 0 := by
  unfold constantTimeByteEq
  by_cases h : x = y
  · subst h
    simp [Nat.xor_self]
  · have hxor : x ^^^ y ≠ 0 := by
      intro hc
      exact h (Nat.xor_eq_zero.mp hc)
    have hlt : x ^^^ y < 256 := by
      have : (256 : Nat) = 2 ^ 8 := by norm_num
      rw [this] at hx hy ⊢
      exact Nat.xor_lt_two_pow hx hy
    have hpos : 0 < x ^^^ y := Nat.pos_of_ne_zero hxor
    have hmod : ((x ^^^ y) + 2 ^ 32 - 1) % 2 ^ 32 = (x ^^^ y) - 1 := by
      omega
    rw [hmod, Nat.shiftRight_eq_div_pow]
    have hdiv : (x ^^^ y) - 1 < 2 ^ 31 := by omega
    rw [Nat.div_eq_of_lt hdiv, if_neg h]

theorem lor_eq_zero_iff (a b : Nat) : a ||| b = 0 ↔ a = 0 ∧ b = 0 := by
  constructor
  · intro h
    constructor
    · by_contra hne
      obtain ⟨i, hi⟩ := Nat.ne_zero_implies_bit_true hne
      have : (a ||| b).testBit i = true := by
        simp [Nat.testBit_or, hi]
      rw [h] at this
      simp at this
    · by_contra hne
      obtain ⟨i, hi⟩ := Nat.ne_zero_implies_bit_true hne
      have : (a ||| b).testBit i = true := by
        simp [Nat.testBit_or, hi]
      rw [h] at this
      simp at this
  · rintro ⟨rfl, rfl⟩
    simp

theorem ctFold_eq_zero_iff (l : List (Nat × Nat)) (v : Nat) :
    ctFold l v = 0 ↔ v = 0 ∧ ∀ p ∈ l, p.1 = p.2 := by
  induction l generalizing v with
  | nil => simp [ctFold]
  | cons hd tl ih =>
    show ctFold tl (v ||| (hd.1 ^^^ hd.2)) = 0 ↔ _
    rw [ih]
    rw [lor_eq_zero_iff]
    constructor
    · rintro ⟨⟨hv, hx⟩, htl⟩
      refine ⟨hv, ?_⟩
      intro p hp
      rcases List.mem_cons.mp hp with h | h
      · subst h
        exact Nat.xor_eq_zero.mp hx
      · exact htl p h
    · rintro ⟨hv, hall⟩
      refine ⟨⟨hv, ?_⟩, ?_⟩
      · exact Nat.xor_eq_zero.mpr (hall hd (List.mem_cons_self _ _))
      · intro p hp
        exact hall p (List.mem_cons_of_mem _ hp)

theorem ctFold_lt (l : List (Nat × Nat)) (v : Nat)
    (hl : ∀ p ∈ l, p.1 < 256 ∧ p.2 < 256) (hv : v < 256) :
    ctFold l v < 256 := by
  induction l generalizing v with
  | nil => simpa [ctFold] using hv
  | cons hd tl ih =>
    show ctFold tl (v ||| (hd.1 ^^^ hd.2)) < 256
    have hhd := hl hd (List.mem_cons_self _ _)
    have h256 : (256 : Nat) = 2 ^ 8 := by norm_num
    have hxor : hd.1 ^^^ hd.2 < 256 := by
      rw [h256] at hhd ⊢
      exact Nat.xor_lt_two_pow hhd.1 hhd.2
    have hor : v ||| (hd.1 ^^^ hd.2) < 256 := by
      rw [h256] at hv hxor ⊢
      exact Nat.or_lt_two_pow hv hxor
    exact ih _ (fun p hp => hl p (List.mem_cons_of_mem _ hp)) hor

theorem zip_forall_eq_iff (x y : Bytes) (hlen : x.length = y.length) :
    (∀ p ∈ x.zip y, p.1 = p.2) ↔ x = y := by
  induction x generalizing y with
  | nil =>
    cases y with
    | nil => simp
    | cons b bs => simp at hlen
  | cons a as ih =>
    cases y with
    | nil => simp at hlen
    | cons b bs =>
      have hlen' : as.length = bs.length := by simpa using hlen
      simp only [List.zip_cons_cons, List.mem_cons, List.cons.injEq]
      constructor
      · intro h
        exact ⟨h (a, b) (Or.inl rfl),
          (ih bs hlen').mp (fun p hp => h p (Or.inr hp))⟩
      · rintro ⟨rfl, rfl⟩
        intro p hp
        rcases hp with h | h
        · subst h; rfl
        · exact (ih as rfl).mpr rfl p h

/-- On byte strings, the constant-time comparison decides equality. -/
theorem constantTimeCompare_eq_one_iff (x y : Bytes)
    (hx : ∀ b ∈ x, b < 256) (hy : ∀ b ∈ y, b < 256) :
    constantTimeCompare x y = 1 ↔ x = y := by
  unfold constantTimeCompare
  by_cases hlen : x.length = y.length
  · simp only [hlen, ne_eq, not_true_eq_false, if_false]
    have hbound : ctFold (x.zip y) 0 < 256 := by
      refine ctFold_lt _ _ ?_ (by norm_num)
      intro p hp
      exact ⟨hx p.1 (List.of_mem_zip hp).1, hy p.2 (List.of_mem_zip hp).2⟩
    rw [constantTimeByteEq_eq _ _ hbound (by norm_num)]
    by_cases hz : ctFold (x.zip y) 0 = 0
    · have hall := (ctFold_eq_zero_iff _ _).mp hz
      rw [if_pos hz]
      constructor
      · intro _
        exact (zip_forall_eq_iff x y hlen).mp hall.2
      · intro _
        rfl
    · rw [if_neg hz]
      constructor
      · intro h
        omega
      · intro heq
        exfalso
        apply hz
        rw [ctFold_eq_zero_iff]
        exact ⟨rfl, (zip_forall_eq_iff x y hlen).mpr heq⟩
  · simp only [hlen, ne_eq, not_false_eq_true, if_true]
    constructor
    · intro h
      omega
    · intro heq
      exact absurd (congrArg List.length heq) hlen

theorem mem_zip_self_eq (x : Bytes) : ∀ p ∈ x.zip x, p.1 = p.2 := by
  induction x with
  | nil => intro p hp; simp at hp
  | cons a as ih =>
    intro p hp
    rcases List.mem_cons.mp hp with h | h
    · subst h; rfl
    · exact ih p h

/-- Comparing a byte string with itself yields `1`, with no bound needed. -/
theorem constantTimeCompare_self (x : Bytes) : constantTimeCompare x x = 1 := by
  unfold constantTimeCompare
  simp only [ne_eq, not_true_eq_false, if_false]
  have hz : ctFold (x.zip x) 0 = 0 := by
    rw [ctFold_eq_zero_iff]
    exact ⟨rfl, mem_zip_self_eq x⟩
  rw [hz]
  decide

end Subtle

namespace BoltDB

/-- A bolt bucket: an association list from byte-string keys to
byte-string values, at most one entry per key. -/
abbrev Bucket := List (Bytes × Bytes)

/-- `Bucket.Get`: the stored value, or `none` (Go nil) when absent.
Polymorphic so the same lookup also serves the bucket directory. -/
def bktGet {α : Type} (bkt : List (Bytes × α)) (k : Bytes) : Option α :=
  match bkt with
  | [] => none
  | (k', v) :: rest => if k' = k then some v else bktGet rest k

/-- Insert-or-overwrite of a key, preserving all other entries. -/
def bktPutRaw {α : Type} (bkt : List (Bytes × α)) (k : Bytes) (v : α) :
    List (Bytes × α) :=
  match bkt with
  | [] => [(k, v)]
  | (k', v') :: rest =>
    if k' = k then (k, v) :: rest else (k', v') :: bktPutRaw rest k v

/-- bolt's `MaxKeySize`: the largest key length `Put` accepts. -/
def maxKeySize : Nat := 32768

/-- `Bucket.Put`: rejects empty keys (`ErrKeyRequired`) and oversized
keys (`ErrKeyTooLarge`), otherwise inserts or overwrites. -/
def bktPut (bkt : Bucket) (k v : Bytes) : Except String Bucket :=
  if k.length = 0 then .error "bolt: key required"
  else if k.length > maxKeySize then .error "bolt: key too large"
  else .ok (bktPutRaw bkt k v)

/-- The state of a bolt database file: its named buckets. -/
structure Tx where
  buckets : List (Bytes × Bucket)
deriving DecidableEq

/-- `Tx.Bucket`: the named bucket, or `none` (Go nil) when absent. -/
def getBucket (tx : Tx) (name : Bytes) : Option Bucket :=
  bktGet tx.buckets name

/-- Replace (or create) a named bucket's contents. -/
def putBucket (tx : Tx) (name : Bytes) (bkt : Bucket) : Tx :=
  ⟨bktPutRaw tx.buckets name bkt⟩

/-- `Tx.CreateBucketIfNotExists`: returns the updated state and the
bucket's (possibly empty) contents. -/
def createBucketIfNotExists (tx : Tx) (name : Bytes) : Tx × Bucket :=
  match getBucket tx name with
  | some b => (tx, b)
  | none => (⟨bktPutRaw tx.buckets name []⟩, [])

theorem bktGet_bktPutRaw_same {α : Type} (bkt : List (Bytes × α))
    (k : Bytes) (v : α) : bktGet (bktPutRaw bkt k v) k = some v := by
  induction bkt with
  | nil => simp [bktPutRaw, bktGet]
  | cons hd tl ih =>
    by_cases h : hd.1 = k
    · simp [bktPutRaw, bktGet, h]
    · simp [bktPutRaw, bktGet, h, ih]

theorem bktGet_bktPutRaw_other {α : Type} (bkt : List (Bytes × α))
    (k : Bytes) (v : α) (k2 : Bytes) (hne : k2 ≠ k) :
    bktGet (bktPutRaw bkt k v) k2 = bktGet bkt k2 := by
  have hne' : ¬(k = k2) := fun hc => hne hc.symm
  induction bkt with
  | nil => simp [bktPutRaw, bktGet, hne']
  | cons hd tl ih =>
    by_cases h : hd.1 = k
    · simp [bktPutRaw, bktGet, h, hne']
    · by_cases h3 : hd.1 = k2
      · simp [bktPutRaw, bktGet, h, h3, hne]
      · simp [bktPutRaw, bktGet, h, h3, hne, ih]

end BoltDB

namespace BoltUserDB

/-- Name of the bucket holding `username -> public key` entries. -/
def usersBucket : Bytes := strBytes "users"

/-- Name of the bucket holding store metadata. -/
def metadataBucket : Bytes := strBytes "metadata"

/-- Key of the schema-version marker inside the metadata bucket. -/
def versionKey : Bytes := strBytes "version"

/-- A computation that either returns a value or aborts the process
(Go `panic`), used where the source panics on internal corruption. -/
inductive PanicOr (α : Type) where
  | panicked (msg : String)
  | val (a : α)
deriving DecidableEq

/-- The boltdb-backed user database: a handle to the bolt file state. -/
structure UserDB where
  tx : BoltDB.Tx
deriving DecidableEq

/-- Well-formedness maintained by `New`/`Add`: the `users` bucket
exists and (since bolt `Put` rejects empty keys) holds no entry with an
empty username. -/
def wf (d : UserDB) : Bool :=
  match BoltDB.getBucket d.tx usersBucket with
  | none => false
  | some bkt => bkt.all (fun p => ¬ p.1.isEmpty)

/-- Embedding of `boltUserDB.IsValid`. `u`/`k` are `none` when the Go
caller passes nil; `k` carries the public key's byte serialization
(`k.Bytes()`). `maxUsernameSize` is the configured maximum username
length (the `userdb` package holding the constant is not in the
sources, so the bound is kept as a parameter). -/
def IsValid (maxUsernameSize : Nat) (d : UserDB) (u : Option Bytes)
    (k : Option Bytes) : PanicOr Bool :=
  if u = none ∨ (u.getD []).length > maxUsernameSize ∨ k = none then .val false
  else
    match BoltDB.getBucket d.tx usersBucket with
    | none => .panicked "BUG: userdb: users bucket is missing"
    | some bkt =>
      match BoltDB.bktGet bkt (u.getD []) with
      | none => .val false
      | some rawPubKey =>
        .val (Subtle.constantTimeCompare rawPubKey (k.getD []) = 1)

/-- Embedding of `boltUserDB.Add`. On success the returned `UserDB` is
the updated store; an `error` leaves the caller's store untouched (the
bolt update transaction rolls back). -/
def Add (maxUsernameSize : Nat) (d : UserDB) (u : Option Bytes)
    (k : Option Bytes) : PanicOr (Except String UserDB) :=
  if u = none ∨ (u.getD []).length > maxUsernameSize then
    .val (.error "userdb: invalid username")
  else if k = none then
    .val (.error "userdb: must provide a public key")
  else
    match BoltDB.getBucket d.tx usersBucket with
    | none => .panicked "BUG: userdb: users bucket is missing"
    | some bkt =>
      match BoltDB.bktPut bkt (u.getD []) (k.getD []) with
      | .error e => .val (.error e)
      | .ok bkt' => .val (.ok ⟨BoltDB.putBucket d.tx usersBucket bkt'⟩)

/-- Embedding of `boltuserdb.New`, acting on the opened bolt file state
(`tx0` is empty for a freshly created file). Creates the `metadata` and
`users` buckets if absent; verifies the persisted version marker if
present (`len(b) != 1 || b[0] != 0` is fatal) and writes it otherwise.
The source discards `Put`'s error when writing the marker, so a failed
marker write leaves the metadata bucket unchanged. -/
def New (tx0 : BoltDB.Tx) : Except String UserDB :=
  let p1 := BoltDB.createBucketIfNotExists tx0 metadataBucket
  let p2 := BoltDB.createBucketIfNotExists p1.1 usersBucket
  let tx2 := p2.1
  let mbkt := p1.2
  match BoltDB.bktGet mbkt versionKey with
  | some b =>
    if b.length ≠ 1 then .error "userdb: incompatible version"
    else if b.getD 0 0 ≠ 0 then .error "userdb: incompatible version"
    else .ok ⟨tx2⟩
  | none =>
    let mbkt' :=
      match BoltDB.bktPut mbkt versionKey [0] with
      | .ok nb => nb
      | .error _ => mbkt
    .ok (⟨BoltDB.putBucket tx2 metadataBucket mbkt'⟩)

end BoltUserDB

namespace Provider

/-- `constants.SphinxPlaintextHeaderLength` from the sphinx core: the
two fixed header bytes (flags, reserved) of a plaintext block, per the
wire layout `byte 0 = flags, byte 1 = reserved`. -/
def sphinxPlaintextHeaderLength : Nat := 2

/-- Routing commands the provider attaches to a synthesized SURB-ACK. -/
inductive RoutingCommand where
  | nextNodeHop (id : Bytes)
  | nodeDelay (delay : Nat)
deriving DecidableEq

def RoutingCommand.isNextNodeHop : RoutingCommand → Bool
  | .nextNodeHop _ => true
  | .nodeDelay _ => false

/-- Modelled from the spec: the inbound packet record (`packet.go` is
not among the sources; §3 gives `(id, recipient, payload, delay,
routing_commands, is_surb_reply)`). Only the fields `onToUser` reads
are carried: the decoded plaintext payload, the packet's node-delay
routing command value, its receipt timestamp and its delay value. -/
structure Packet where
  payload : Bytes
  nodeDelayDelay : Nat
  recvAt : Nat
  delay : Nat
deriving DecidableEq

/-- The SURB-ACK packet handed to the scheduler, with the fields
`onToUser` sets on it. -/
structure AckPacket where
  raw : Bytes
  cmds : List RoutingCommand
  nextNodeHopID : Bytes
  nodeDelayVal : Nat
  recvAt : Nat
  delay : Nat
  mustForward : Bool
deriving DecidableEq

/-- External collaborators of `onToUser`: the spool's `StoreMessage`
and the sphinx `NewPacketFromSURB` synthesis, plus the
`constants.ForwardPayloadLength` sizing the all-zero ack payload. -/
structure ToUserEnv where
  storeMessage : Bytes → Bytes → Except String Unit
  newPacketFromSURB : Bytes → Bytes → Except String (Bytes × Bytes)
  forwardPayloadLength : Nat

/-- The externally visible effects of one `onToUser` call: the
successfully spooled `(recipient, ciphertext)` stores, and the ack
packets handed to the scheduler. -/
structure ToUserOutcome where
  storedMessages : List (Bytes × Bytes)
  scheduled : List AckPacket
deriving DecidableEq

/-- The tail of `onToUser` after parsing: store the ciphertext, then
iff a SURB was present and the store succeeded, synthesize and hand
off exactly one SURB-ACK carrying the original packet's delay and
receipt timestamp. -/
def onToUserStore (env : ToUserEnv) (pkt : Packet) (recipient ct : Bytes)
    (surb : Option Bytes) : ToUserOutcome :=
  match env.storeMessage recipient ct with
  | .error _ => ⟨[], []⟩
  | .ok _ =>
    match surb with
    | none => ⟨[(recipient, ct)], []⟩
    | some s =>
      match env.newPacketFromSURB s (List.replicate env.forwardPayloadLength 0) with
      | .error _ => ⟨[(recipient, ct)], []⟩
      | .ok (rawAckPkt, firstHop) =>
        let nextHopCmd := RoutingCommand.nextNodeHop firstHop
        let nodeDelayCmd := RoutingCommand.nodeDelay pkt.nodeDelayDelay
        let ackPkt : AckPacket :=
          { raw := rawAckPkt
            cmds := [nextHopCmd, nodeDelayCmd]
            nextNodeHopID := firstHop
            nodeDelayVal := pkt.nodeDelayDelay
            recvAt := pkt.recvAt
            delay := pkt.delay
            mustForward := true }
        ⟨[(recipient, ct)], [ackPkt]⟩

/-- Embedding of `provider.onToUser`: parse the payload as a
`BlockSphinxPlaintext` (length, reserved byte, flags byte in that
order), dropping on any malformed field, then store and optionally
synthesize a SURB-ACK. `surbLength` is the sphinx `SURBLength`
protocol constant. -/
def onToUser (env : ToUserEnv) (surbLength : Nat) (pkt : Packet)
    (recipient : Bytes) : ToUserOutcome :=
  let hdrLength := sphinxPlaintextHeaderLength + surbLength
  let b := pkt.payload
  if b.length < hdrLength then ⟨[], []⟩
  else if b.getD 1 0 ≠ 0 then ⟨[], []⟩
  else
    let ct := b.drop hdrLength
    match b.getD 0 0 with
    | 0 => onToUserStore env pkt recipient ct none
    | 1 => onToUserStore env pkt recipient ct (some ((b.drop 2).take surbLength))
    | _ => ⟨[], []⟩

/-- `bytes.TrimRight(id, "\x00")`: strip trailing NUL bytes from the
fixed-width recipient field. -/
def trimRightNul (b : Bytes) : Bytes :=
  (b.reverse.dropWhile (fun x => x = 0)).reverse

/-- The worker's view of a dequeued item: either the halt channel
fired, or a packet arrived on the dispatch channel. -/
inductive WorkerEvent where
  | haltSignal
  | inbound (recipientID : Bytes) (isSURBReply : Bool)
deriving DecidableEq

/-- What one iteration of `provider.worker`'s loop does with an event.
`nilDeref` is a Go nil-pointer dereference panic. -/
inductive IterOutcome where
  | nilDeref
  | droppedInvalidRecipient
  | dispatchedSURBReply (recipient : Bytes)
  | dispatchedToUser (recipient : Bytes)
deriving DecidableEq

/-- Embedding of one iteration of `provider.worker`'s loop. The halt
arm of the `select` only logs and does not leave the loop, so control
falls through with `pkt` still nil and the next statement
(`pkt.recipient.ID[:]`) dereferences a nil pointer. -/
def workerIteration (userExists : Bytes → Bool) (ev : WorkerEvent) :
    IterOutcome :=
  match ev with
  | .haltSignal => .nilDeref
  | .inbound recipientID isSURB =>
    let recipient := trimRightNul recipientID
    if userExists recipient then
      if isSURB then .dispatchedSURBReply recipient
      else .dispatchedToUser recipient
    else .droppedInvalidRecipient

/-- The teardown steps of `provider.halt`, in program order. -/
inductive HaltAction where
  | closeHaltCh
  | waitWorkers
  | closeCh
  | closeUserDB
  | closeSpool
deriving DecidableEq

/-- Embedding of `provider.halt`: close the halt channel, wait for the
worker, close the dispatch channel, then close the user database and
the spool (each only when non-nil), in that order. -/
def halt (hasUserDB hasSpool : Bool) : List HaltAction :=
  [.closeHaltCh, .waitWorkers, .closeCh]
    ++ (if hasUserDB then [.closeUserDB] else [])
    ++ (if hasSpool then [.closeSpool] else [])

/-- Outcome of `newProvider`: the user database failed to open, or the
constructor panicked, or a provider was returned with its worker
started (the source has no path producing this last outcome). -/
inductive NewProviderOutcome where
  | dbOpenFailed (msg : String)
  | panicked (msg : String)
  | started (db : BoltUserDB.UserDB)
deriving DecidableEq

def NewProviderOutcome.isStarted : NewProviderOutcome → Bool
  | .started _ => true
  | _ => false

/-- Embedding of `newProvider`: open the bolt user database, then —
before initializing the spool and before starting the worker —
unconditionally panic. -/
def newProvider (userDBFile : BoltDB.Tx) : NewProviderOutcome :=
  match BoltUserDB.New userDBFile with
  | .error e => .dbOpenFailed e
  | .ok _ => .panicked "BUG: Message spool initialization not done yet."

end Provider

namespace NodeKey

/-- A decoded PEM block: its type tag and its decoded body bytes. -/
structure PEMBlock where
  type : String
  bytes : Bytes
deriving DecidableEq

/-- Result of loading an existing private-key file: the decoded key
bytes handed to `FromBytes`, an error, or a nil dereference (the
source reads `blk.Type` without a nil check when `pem.Decode` finds no
block and leaves no remainder). -/
inductive LoadResult where
  | ok (keyBytes : Bytes)
  | err (msg : String)
  | nilDeref
deriving DecidableEq

/-- The result of a key-file load together with the buffers explicitly
overwritten (`utils.ExplicitBzero`) by the time the function returns,
in wipe order (Go defers run last-in-first-out). -/
structure LoadOutcome where
  result : LoadResult
  wiped : List Bytes
deriving DecidableEq

/-- Embedding of the load path shared by `initIdentity` and
`initLink`: `buf` is the file contents (its wipe is deferred on
entry), `(blk, rest)` the outcome of `pem.Decode(buf)`. The wipe of
`blk.Bytes` is only deferred after both the trailing-data check and
the type-tag check have passed. -/
def loadPrivateKey (keyType : String) (buf : Bytes) (blk : Option PEMBlock)
    (rest : Bytes) : LoadOutcome :=
  if rest.length ≠ 0 then ⟨.err "trailing garbage", [buf]⟩
  else
    match blk with
    | none => ⟨.nilDeref, [buf]⟩
    | some b =>
      if b.type ≠ keyType then ⟨.err "invalid PEM Type", [buf]⟩
      else ⟨.ok b.bytes, [b.bytes, buf]⟩

/-- `initIdentity`'s load path: expects the Ed25519 type tag. -/
def initIdentity (buf : Bytes) (blk : Option PEMBlock) (rest : Bytes) :
    LoadOutcome :=
  loadPrivateKey "Ed25519 PRIVATE KEY" buf blk rest

/-- `initLink`'s load path: expects the X25519 type tag. -/
def initLink (buf : Bytes) (blk : Option PEMBlock) (rest : Bytes) :
    LoadOutcome :=
  loadPrivateKey "X25519 PRIVATE KEY" buf blk rest

end NodeKey

namespace BoltDB

theorem bktGet_nil_of_no_empty {α : Type} (bkt : List (Bytes × α))
    (h : ∀ p ∈ bkt, p.1 ≠ ([] : Bytes)) : bktGet bkt ([] : Bytes) = none := by
  induction bkt with
  | nil => rfl
  | cons hd tl ih =>
    have hhd := h hd (List.mem_cons_self _ _)
    simp only [bktGet, if_neg hhd]
    exact ih (fun p hp => h p (List.mem_cons_of_mem _ hp))

end BoltDB

namespace BoltUserDB

/-- Claim C1: `IsValid(u, k)` returns `false` — with no error and no
panic — when `u` is nil, empty, or longer than the configured maximum,
when `k` is nil, and when `u` is not registered in the users bucket;
when `u` is registered, it returns `true` exactly when the stored key
bytes equal `k`'s bytes. The store hypotheses say the `users` bucket
exists and (as bolt guarantees) holds no empty username. -/
theorem claim_C1 (maxU : Nat) (d : UserDB) (bkt : BoltDB.Bucket)
    (hbkt : BoltDB.getBucket d.tx usersBucket = some bkt)
    (hnoempty : ∀ p ∈ bkt, p.1 ≠ ([] : Bytes)) :
    (∀ k, IsValid maxU d none k = .val false) ∧
    (∀ k, IsValid maxU d (some []) k = .val false) ∧
    (∀ u k, u.length > maxU → IsValid maxU d (some u) k = .val false) ∧
    (∀ u, IsValid maxU d (some u) none = .val false) ∧
    (∀ u k, BoltDB.bktGet bkt u = none →
      IsValid maxU d (some u) (some k) = .val false) ∧
    (∀ u k raw, u.length ≤ maxU → BoltDB.bktGet bkt u = some raw →
      (∀ b ∈ raw, b < 256) → (∀ b ∈ k, b < 256) →
      (IsValid maxU d (some u) (some k) = .val true ↔ raw = k)) := by
  refine ⟨?_, ?_, ?_, ?_, ?_, ?_⟩
  · intro k
    simp [IsValid]
  · intro k
    cases k with
    | none => simp [IsValid]
    | some kk =>
      simp only [IsValid]
      rw [if_neg]
      · rw [hbkt]
        simp only [Option.getD]
        rw [BoltDB.bktGet_nil_of_no_empty bkt hnoempty]
      · push_neg
        refine ⟨by simp, by simp, by simp⟩
  · intro u k hlen
    simp [IsValid, hlen]
  · intro u
    simp [IsValid]
  · intro u k hnone
    by_cases hlen : u.length > maxU
    · simp [IsValid, hlen]
    · simp only [IsValid]
      rw [if_neg]
      · rw [hbkt]
        simp only [Option.getD]
        rw [hnone]
      · push_neg
        exact ⟨by simp, by simpa using hlen, by simp⟩
  · intro u k raw hlen hraw hb1 hb2
    simp only [IsValid]
    rw [if_neg]
    · rw [hbkt]
      simp only [Option.getD]
      rw [hraw]
      constructor
      · intro h
        have hbool := PanicOr.val.inj h
        have : Subtle.constantTimeCompare raw k = 1 := of_decide_eq_true hbool
        exact (Subtle.constantTimeCompare_eq_one_iff raw k hb1 hb2).mp this
      · intro h
        subst h
        have : Subtle.constantTimeCompare raw raw = 1 :=
          Subtle.constantTimeCompare_self raw
        simp [this]
    · push_neg
      exact ⟨by simp, by simpa using hlen, by simp⟩

/-- A concrete store registering username `"a"` (byte `97`) with key
bytes `[1, 2]`, used to instantiate the userdb claims. -/
def sampleDB : UserDB :=
  ⟨⟨[(metadataBucket, [(versionKey, [0])]),
     (usersBucket, [([97], [1, 2])])]⟩⟩

theorem claim_C1_witness :
    IsValid 64 sampleDB (some [97]) (some [1, 2]) = .val true ∧
    IsValid 64 sampleDB (some [98]) (some [1, 2]) = .val false ∧
    IsValid 64 sampleDB none (some [1, 2]) = .val false := by
  have h := claim_C1 64 sampleDB [([97], [1, 2])] (by decide) (by decide)
  refine ⟨?_, ?_, h.1 (some [1, 2])⟩
  · exact (h.2.2.2.2.2 [97] [1, 2] [1, 2] (by decide) (by decide)
      (by decide) (by decide)).mpr rfl
  · exact h.2.2.2.2.1 [98] [1, 2] (by decide)

end BoltUserDB

namespace BoltDB

theorem bktPut_ok_elim (bkt : Bucket) (k v : Bytes) (b' : Bucket)
    (h : bktPut bkt k v = .ok b') :
    b' = bktPutRaw bkt k v ∧ k ≠ [] ∧ k.length ≤ maxKeySize := by
  unfold bktPut at h
  by_cases h1 : k.length = 0
  · rw [if_pos h1] at h
    exact absurd h (by simp)
  · rw [if_neg h1] at h
    by_cases h2 : k.length > maxKeySize
    · rw [if_pos h2] at h
      exact absurd h (by simp)
    · rw [if_neg h2] at h
      refine ⟨(Except.ok.inj h).symm, ?_, by omega⟩
      intro hc
      subst hc
      exact h1 rfl

end BoltDB

namespace BoltUserDB

theorem Add_ok_elim (maxU : Nat) (d : UserDB) (u k : Bytes) (d' : UserDB)
    (hadd : Add maxU d (some u) (some k) = .val (.ok d')) :
    u.length ≤ maxU ∧
    ∃ bkt, BoltDB.getBucket d.tx usersBucket = some bkt ∧
      d' = ⟨BoltDB.putBucket d.tx usersBucket (BoltDB.bktPutRaw bkt u k)⟩ := by
  unfold Add at hadd
  by_cases h1 : (some u = none ∨ (Option.getD (some u) []).length > maxU)
  · rw [if_pos h1] at hadd
    exact absurd hadd (by simp)
  · rw [if_neg h1] at hadd
    rw [if_neg (by simp : ¬((some k : Option Bytes) = none))] at hadd
    push_neg at h1
    have hlen : u.length ≤ maxU := by simpa using h1.2
    refine ⟨hlen, ?_⟩
    cases hbkt : BoltDB.getBucket d.tx usersBucket with
    | none =>
      rw [hbkt] at hadd
      exact absurd hadd (by simp)
    | some bkt =>
      rw [hbkt] at hadd
      simp only [Option.getD] at hadd
      cases hput : BoltDB.bktPut bkt u k with
      | error e =>
        rw [hput] at hadd
        exact absurd hadd (by simp)
      | ok bkt' =>
        rw [hput] at hadd
        have hd' := (Except.ok.inj (PanicOr.val.inj hadd)).symm
        have helim := BoltDB.bktPut_ok_elim bkt u k bkt' hput
        refine ⟨bkt, rfl, ?_⟩
        rw [hd', helim.1]

/-- Claim C6: after a successful `Add(u, k)` — which may overwrite an
earlier key for `u`, last write winning — `IsValid(u, k)` is true,
`IsValid(u, k')` is false for every key `k'` with different bytes, and
`IsValid(u2, k)` is false for every username `u2` unregistered in the
updated store. -/
theorem claim_C6 (maxU : Nat) (d d' : UserDB) (u k : Bytes)
    (hadd : Add maxU d (some u) (some k) = .val (.ok d')) :
    IsValid maxU d' (some u) (some k) = .val true ∧
    (∀ k', k' ≠ k → (∀ b ∈ k, b < 256) → (∀ b ∈ k', b < 256) →
      IsValid maxU d' (some u) (some k') = .val false) ∧
    (∀ u2 bkt', BoltDB.getBucket d'.tx usersBucket = some bkt' →
      BoltDB.bktGet bkt' u2 = none →
      IsValid maxU d' (some u2) (some k) = .val false) := by
  obtain ⟨hlen, bkt, hbkt, hd'⟩ := Add_ok_elim maxU d u k d' hadd
  have hbkt' : BoltDB.getBucket d'.tx usersBucket
      = some (BoltDB.bktPutRaw bkt u k) := by
    rw [hd']
    exact BoltDB.bktGet_bktPutRaw_same _ _ _
  have hguard : ¬(some u = none ∨ (Option.getD (some u) []).length > maxU
      ∨ (some k : Option Bytes) = none) := by
    push_neg
    exact ⟨by simp, by simpa using hlen, by simp⟩
  refine ⟨?_, ?_, ?_⟩
  · simp only [IsValid]
    rw [if_neg hguard, hbkt']
    simp only [Option.getD]
    rw [BoltDB.bktGet_bktPutRaw_same]
    simp [Subtle.constantTimeCompare_self k]
  · intro k' hne hk hk'
    have hguard2 : ¬(some u = none ∨ (Option.getD (some u) []).length > maxU
        ∨ (some k' : Option Bytes) = none) := by
      push_neg
      exact ⟨by simp, by simpa using hlen, by simp⟩
    simp only [IsValid]
    rw [if_neg hguard2, hbkt']
    simp only [Option.getD]
    rw [BoltDB.bktGet_bktPutRaw_same]
    have : Subtle.constantTimeCompare k k' ≠ 1 := by
      intro hc
      exact hne ((Subtle.constantTimeCompare_eq_one_iff k k' hk hk').mp hc).symm
    simp [this]
  · intro u2 bkt' hbkt2 hnone
    rw [hbkt'] at hbkt2
    have hbkteq := Option.some.inj hbkt2
    by_cases hlen2 : u2.length > maxU
    · simp [IsValid, hlen2]
    · simp only [IsValid]
      rw [if_neg ?_]
      · rw [hbkt']
        simp only [Option.getD]
        rw [hbkteq, hnone]
      · push_neg
        exact ⟨by simp, by simpa using hlen2, by simp⟩

/-- A fresh store as `New` creates it: empty `users` bucket. -/
def freshDB : UserDB :=
  ⟨⟨[(metadataBucket, [(versionKey, [0])]), (usersBucket, [])]⟩⟩

theorem claim_C6_witness :
    IsValid 64 ⟨⟨[(metadataBucket, [(versionKey, [0])]),
        (usersBucket, [([97], [5])])]⟩⟩ (some [97]) (some [5]) = .val true ∧
    IsValid 64 ⟨⟨[(metadataBucket, [(versionKey, [0])]),
        (usersBucket, [([97], [5])])]⟩⟩ (some [97]) (some [6]) = .val false ∧
    IsValid 64 ⟨⟨[(metadataBucket, [(versionKey, [0])]),
        (usersBucket, [([97], [5])])]⟩⟩ (some [98]) (some [5]) = .val false := by
  have h := claim_C6 64 freshDB
    ⟨⟨[(metadataBucket, [(versionKey, [0])]), (usersBucket, [([97], [5])])]⟩⟩
    [97] [5] (by rfl)
  exact ⟨h.1, h.2.1 [6] (by decide) (by decide) (by decide),
    h.2.2 [98] [([97], [5])] (by decide) (by decide)⟩

/-- Claim C7: `Add` with a nil or empty username, an over-long
username, or a nil public key returns an error — the error result
carries no updated store, so the store is unmutated — and `IsValid`
for that same username then returns `false` without error. The
hypotheses say the `users` bucket exists and holds no empty username. -/
theorem claim_C7 (maxU : Nat) (d : UserDB) (bkt : BoltDB.Bucket)
    (hbkt : BoltDB.getBucket d.tx usersBucket = some bkt)
    (hnoempty : ∀ p ∈ bkt, p.1 ≠ ([] : Bytes)) :
    (∀ k, ∃ e, Add maxU d none k = .val (.error e)) ∧
    (∀ k, IsValid maxU d none k = .val false) ∧
    (∀ k, ∃ e, Add maxU d (some []) k = .val (.error e)) ∧
    (∀ k, IsValid maxU d (some []) k = .val false) ∧
    (∀ u k, u.length > maxU → ∃ e, Add maxU d (some u) k = .val (.error e)) ∧
    (∀ u k, u.length > maxU → IsValid maxU d (some u) k = .val false) ∧
    (∀ u, ∃ e, Add maxU d (some u) none = .val (.error e)) ∧
    (∀ u, IsValid maxU d (some u) none = .val false) := by
  have hC1 := claim_C1 maxU d bkt hbkt hnoempty
  refine ⟨?_, hC1.1, ?_, hC1.2.1, ?_, ?_, ?_, hC1.2.2.2.1⟩
  · intro k
    exact ⟨"userdb: invalid username", by simp [Add]⟩
  · intro k
    cases k with
    | none =>
      exact ⟨"userdb: must provide a public key", by simp [Add]⟩
    | some kk =>
      refine ⟨"bolt: key required", ?_⟩
      simp only [Add]
      rw [if_neg (by simp), if_neg (by simp), hbkt]
      simp [BoltDB.bktPut]
  · intro u k hlen
    exact ⟨"userdb: invalid username", by simp [Add, hlen]⟩
  · intro u k hlen
    exact hC1.2.2.1 u k hlen
  · intro u
    by_cases hlen : u.length > maxU
    · exact ⟨"userdb: invalid username", by simp [Add, hlen]⟩
    · refine ⟨"userdb: must provide a public key", ?_⟩
      simp only [Add]
      rw [if_neg (by push_neg; exact ⟨by simp, by simpa using hlen⟩)]
      simp

theorem claim_C7_witness :
    (∃ e, Add 64 sampleDB (some []) (some [1, 2]) = .val (.error e)) ∧
    IsValid 64 sampleDB (some []) (some [1, 2]) = .val false := by
  have h := claim_C7 64 sampleDB [([97], [1, 2])] (by decide) (by decide)
  exact ⟨h.2.2.1 (some [1, 2]), h.2.2.2.1 (some [1, 2])⟩

end BoltUserDB

namespace Subtle

/-- Claim C10: the public-key comparison `IsValid` performs —
`constantTimeCompare` — is non-short-circuiting and data-independent:
the instrumented variant computes the same result, its loop-iteration
count is a function of the operand lengths alone (never of which byte
differs), and on equal-length operands every byte position is visited. -/
theorem claim_C10 :
    (∀ x y : Bytes, (constantTimeCompareInstr x y).1 = constantTimeCompare x y) ∧
    (∀ x y x' y' : Bytes, x.length = x'.length → y.length = y'.length →
      (constantTimeCompareInstr x y).2 = (constantTimeCompareInstr x' y').2) ∧
    (∀ x y : Bytes, x.length = y.length →
      (constantTimeCompareInstr x y).2 = x.length) := by
  refine ⟨?_, ?_, ?_⟩
  · intro x y
    unfold constantTimeCompareInstr constantTimeCompare
    by_cases h : x.length = y.length
    · simp [h]
    · simp [h]
  · intro x y x' y' hx hy
    unfold constantTimeCompareInstr
    rw [List.length_zip, List.length_zip, hx, hy]
    by_cases h : x'.length = y'.length
    · simp [h]
    · simp [h]
  · intro x y h
    unfold constantTimeCompareInstr
    rw [if_neg (by simpa using h), List.length_zip, h, Nat.min_self]

theorem claim_C10_witness :
    (constantTimeCompareInstr [1, 2] [3, 4]).2
      = (constantTimeCompareInstr [9, 9] [1, 2]).2 ∧
    (constantTimeCompareInstr [5, 6, 7] [7, 6, 5]).2 = 3 := by
  exact ⟨claim_C10.2.1 [1, 2] [3, 4] [9, 9] [1, 2] rfl rfl,
    claim_C10.2.2 [5, 6, 7] [7, 6, 5] rfl⟩

end Subtle

namespace BoltUserDB

/-- True when the opened store carries no persisted version marker:
either the `metadata` bucket is absent or it has no `version` key. -/
def versionMarkerAbsent (tx0 : BoltDB.Tx) : Bool :=
  match BoltDB.getBucket tx0 metadataBucket with
  | none => true
  | some m => (BoltDB.bktGet m versionKey).isNone

/-- Claim C4 counterexample: an existing store whose `metadata` and
`users` buckets are present but whose version marker is missing opens
successfully — `New` treats it as first creation and writes the
marker — whereas the claim says a missing marker is a fatal open
error. -/
theorem claim_C4_counterexample :
    BoltUserDB.New ⟨[(metadataBucket, []), (usersBucket, [])]⟩
      = .ok ⟨⟨[(metadataBucket, [(versionKey, [0])]), (usersBucket, [])]⟩⟩ := by
  rfl

/-- Claim C4 (amended): `New` fails with the fatal incompatible-version
error exactly when the persisted marker is present but is not the
single byte `0`; a store with the marker `[0]` opens; and when the
marker is absent — first creation or an existing store without one —
`New` succeeds, creates the `metadata` and `users` namespaces and
writes the marker. It never silently migrates a mismatched marker. -/
theorem claim_C4 (tx0 : BoltDB.Tx) :
    (∀ m b, BoltDB.getBucket tx0 metadataBucket = some m →
      BoltDB.bktGet m versionKey = some b →
      (b.length ≠ 1 ∨ b.getD 0 0 ≠ 0) →
      New tx0 = .error "userdb: incompatible version") ∧
    (∀ m b, BoltDB.getBucket tx0 metadataBucket = some m →
      BoltDB.bktGet m versionKey = some b →
      b.length = 1 → b.getD 0 0 = 0 →
      ∃ d, New tx0 = .ok d) ∧
    (versionMarkerAbsent tx0 = true →
      ∃ d, New tx0 = .ok d ∧
        ∃ m', BoltDB.getBucket d.tx metadataBucket = some m' ∧
          BoltDB.bktGet m' versionKey = some [0] ∧
          ∃ ub, BoltDB.getBucket d.tx usersBucket = some ub) := by
  have hne : usersBucket ≠ metadataBucket := by decide
  refine ⟨?_, ?_, ?_⟩
  · intro m b hm hb hbad
    unfold New
    simp only [BoltDB.createBucketIfNotExists, hm, hb]
    rcases hbad with h | h
    · rw [if_pos h]
    · by_cases h1 : b.length ≠ 1
      · rw [if_pos h1]
      · rw [if_neg h1, if_pos h]
  · intro m b hm hb h1 h0
    unfold New
    simp only [BoltDB.createBucketIfNotExists, hm, hb]
    rw [if_neg (by simpa using h1), if_neg (by simpa using h0)]
    exact ⟨_, rfl⟩
  · intro habsent
    unfold versionMarkerAbsent at habsent
    unfold New
    cases hm : BoltDB.getBucket tx0 metadataBucket with
    | none =>
      simp only [BoltDB.createBucketIfNotExists, hm]
      have hm2 : BoltDB.getBucket
          (⟨BoltDB.bktPutRaw tx0.buckets metadataBucket []⟩ : BoltDB.Tx)
          usersBucket = BoltDB.getBucket tx0 usersBucket := by
        unfold BoltDB.getBucket
        exact BoltDB.bktGet_bktPutRaw_other _ _ _ _ hne
      cases hu : BoltDB.getBucket tx0 usersBucket with
      | none =>
        rw [hm2, hu]
        simp only [BoltDB.bktGet, BoltDB.bktPut, BoltDB.bktPutRaw]
        refine ⟨_, rfl, ?_⟩
        refine ⟨[(versionKey, [0])], ?_, by simp [BoltDB.bktGet], ?_⟩
        · unfold BoltDB.putBucket BoltDB.getBucket
          simp only
          exact BoltDB.bktGet_bktPutRaw_same _ _ _
        · refine ⟨[], ?_⟩
          unfold BoltDB.putBucket BoltDB.getBucket
          simp only
          rw [BoltDB.bktGet_bktPutRaw_other _ _ _ _ hne]
          show BoltDB.bktGet
            (BoltDB.bktPutRaw (BoltDB.bktPutRaw tx0.buckets metadataBucket [])
              usersBucket []) usersBucket = some []
          exact BoltDB.bktGet_bktPutRaw_same _ _ _
      | some ub =>
        rw [hm2, hu]
        simp only [BoltDB.bktGet, BoltDB.bktPut, BoltDB.bktPutRaw]
        refine ⟨_, rfl, ?_⟩
        refine ⟨[(versionKey, [0])], ?_, by simp [BoltDB.bktGet], ?_⟩
        · unfold BoltDB.putBucket BoltDB.getBucket
          simp only
          exact BoltDB.bktGet_bktPutRaw_same _ _ _
        · refine ⟨ub, ?_⟩
          unfold BoltDB.putBucket BoltDB.getBucket
          simp only
          rw [BoltDB.bktGet_bktPutRaw_other _ _ _ _ hne]
          show BoltDB.bktGet
            (BoltDB.bktPutRaw tx0.buckets metadataBucket []) usersBucket
            = some ub
          rw [BoltDB.bktGet_bktPutRaw_other _ _ _ _ hne]
          exact hu
    | some m =>
      rw [hm] at habsent
      have habsent' : (BoltDB.bktGet m versionKey).isNone = true := habsent
      have hv : BoltDB.bktGet m versionKey = none :=
        Option.isNone_iff_eq_none.mp habsent'
      simp only [BoltDB.createBucketIfNotExists, hm, hv]
      cases hu : BoltDB.getBucket tx0 usersBucket with
      | none =>
        simp only [BoltDB.bktPut]
        rw [if_neg (by decide), if_neg (by decide)]
        refine ⟨_, rfl, ?_⟩
        refine ⟨BoltDB.bktPutRaw m versionKey [0], ?_,
          BoltDB.bktGet_bktPutRaw_same _ _ _, ?_⟩
        · unfold BoltDB.putBucket BoltDB.getBucket
          simp only
          exact BoltDB.bktGet_bktPutRaw_same _ _ _
        · refine ⟨[], ?_⟩
          unfold BoltDB.putBucket BoltDB.getBucket
          simp only
          rw [BoltDB.bktGet_bktPutRaw_other _ _ _ _ hne]
          show BoltDB.bktGet
            (BoltDB.bktPutRaw tx0.buckets usersBucket []) usersBucket
            = some []
          exact BoltDB.bktGet_bktPutRaw_same _ _ _
      | some ub =>
        simp only [BoltDB.bktPut]
        rw [if_neg (by decide), if_neg (by decide)]
        refine ⟨_, rfl, ?_⟩
        refine ⟨BoltDB.bktPutRaw m versionKey [0], ?_,
          BoltDB.bktGet_bktPutRaw_same _ _ _, ?_⟩
        · unfold BoltDB.putBucket BoltDB.getBucket
          simp only
          exact BoltDB.bktGet_bktPutRaw_same _ _ _
        · refine ⟨ub, ?_⟩
          unfold BoltDB.putBucket BoltDB.getBucket
          simp only
          rw [BoltDB.bktGet_bktPutRaw_other _ _ _ _ hne]
          exact hu

theorem claim_C4_witness :
    New ⟨[(metadataBucket, [(versionKey, [1])]), (usersBucket, [])]⟩
      = .error "userdb: incompatible version" ∧
    (∃ d, New ⟨[]⟩ = .ok d ∧
      ∃ m', BoltDB.getBucket d.tx metadataBucket = some m' ∧
        BoltDB.bktGet m' versionKey = some [0] ∧
        ∃ ub, BoltDB.getBucket d.tx usersBucket = some ub) := by
  refine ⟨?_, ?_⟩
  · exact (claim_C4 ⟨[(metadataBucket, [(versionKey, [1])]), (usersBucket, [])]⟩).1
      [(versionKey, [1])] [1] (by rfl) (by rfl) (by decide)
  · exact (claim_C4 ⟨[]⟩).2.2 (by rfl)

end BoltUserDB

namespace Provider

/-- Claim C8: `newProvider` never returns a working provider: when the
user database open fails the error is propagated, and when it succeeds
the constructor unconditionally panics before initializing the spool
and before starting the worker. -/
theorem claim_C8 (userDBFile : BoltDB.Tx) :
    (newProvider userDBFile).isStarted = false ∧
    (∀ d, BoltUserDB.New userDBFile = .ok d →
      newProvider userDBFile
        = .panicked "BUG: Message spool initialization not done yet.") := by
  constructor
  · unfold newProvider
    cases BoltUserDB.New userDBFile with
    | error e => rfl
    | ok d => rfl
  · intro d hd
    unfold newProvider
    rw [hd]

theorem claim_C8_witness :
    (newProvider ⟨[]⟩).isStarted = false ∧
    newProvider ⟨[]⟩
      = .panicked "BUG: Message spool initialization not done yet." := by
  refine ⟨(claim_C8 ⟨[]⟩).1, (claim_C8 ⟨[]⟩).2
    ⟨⟨[(BoltUserDB.metadataBucket, [(BoltUserDB.versionKey, [0])]),
       (BoltUserDB.usersBucket, [])]⟩⟩ (by rfl)⟩

end Provider

namespace Provider

/-- Claim C2: a user-message plaintext block is dropped — nothing
stored, no ack — when it is shorter than the fixed header length, when
its reserved byte (byte 1) is non-zero, or when its flags byte
(byte 0) is neither 0 (padding) nor 1 (has-SURB); a well-formed
padding block has the bytes from the fixed header length onward stored
as the message ciphertext and produces no acknowledgement. -/
theorem claim_C2 (env : ToUserEnv) (surbLength : Nat) (pkt : Packet)
    (recipient : Bytes) :
    (pkt.payload.length < sphinxPlaintextHeaderLength + surbLength →
      onToUser env surbLength pkt recipient = ⟨[], []⟩) ∧
    (pkt.payload.getD 1 0 ≠ 0 →
      onToUser env surbLength pkt recipient = ⟨[], []⟩) ∧
    (pkt.payload.getD 0 0 ≠ 0 → pkt.payload.getD 0 0 ≠ 1 →
      onToUser env surbLength pkt recipient = ⟨[], []⟩) ∧
    (¬ pkt.payload.length < sphinxPlaintextHeaderLength + surbLength →
      pkt.payload.getD 1 0 = 0 → pkt.payload.getD 0 0 = 0 →
      env.storeMessage recipient
        (pkt.payload.drop (sphinxPlaintextHeaderLength + surbLength)) = .ok () →
      onToUser env surbLength pkt recipient
        = ⟨[(recipient,
             pkt.payload.drop (sphinxPlaintextHeaderLength + surbLength))],
           []⟩) := by
  refine ⟨?_, ?_, ?_, ?_⟩
  · intro hshort
    simp only [onToUser]
    rw [if_pos hshort]
  · intro hres
    simp only [onToUser]
    by_cases hshort : pkt.payload.length < sphinxPlaintextHeaderLength + surbLength
    · rw [if_pos hshort]
    · rw [if_neg hshort, if_pos hres]
  · intro h0 h1
    simp only [onToUser]
    by_cases hshort : pkt.payload.length < sphinxPlaintextHeaderLength + surbLength
    · rw [if_pos hshort]
    · rw [if_neg hshort]
      by_cases hres : pkt.payload.getD 1 0 ≠ 0
      · rw [if_pos hres]
      · rw [if_neg hres]
  · intro hlen hres hflags hstore
    simp only [onToUser]
    rw [if_neg hlen, if_neg (by simpa using hres), hflags]
    simp only [onToUserStore]
    rw [hstore]

/-- The collaborators used to instantiate the pipeline claims: the
spool store always succeeds and SURB synthesis yields raw packet `[7]`
with first hop `[9]`. -/
def sampleEnv : ToUserEnv :=
  { storeMessage := fun _ _ => .ok ()
    newPacketFromSURB := fun _ _ => .ok ([7], [9])
    forwardPayloadLength := 3 }

theorem claim_C2_witness :
    onToUser sampleEnv 1 ⟨[0, 0, 5, 6], 11, 22, 33⟩ [97]
      = ⟨[([97], [6])], []⟩ ∧
    onToUser sampleEnv 1 ⟨[0, 7, 5, 6], 11, 22, 33⟩ [97] = ⟨[], []⟩ := by
  exact ⟨(claim_C2 sampleEnv 1 ⟨[0, 0, 5, 6], 11, 22, 33⟩ [97]).2.2.2
      (by decide) (by decide) (by decide) (by rfl),
    (claim_C2 sampleEnv 1 ⟨[0, 7, 5, 6], 11, 22, 33⟩ [97]).2.1 (by decide)⟩

/-- Claim C3: a well-formed has-SURB user message whose spool store
succeeds and whose SURB synthesis succeeds hands exactly one ack
packet to the scheduler, and that packet carries the originating
packet's delay value and receipt timestamp unchanged plus exactly one
forwarding hop; if the store fails, or the synthesis fails, no ack is
produced. -/
theorem claim_C3 (env : ToUserEnv) (surbLength : Nat) (pkt : Packet)
    (recipient : Bytes)
    (hlen : ¬ pkt.payload.length < sphinxPlaintextHeaderLength + surbLength)
    (hres : pkt.payload.getD 1 0 = 0)
    (hflags : pkt.payload.getD 0 0 = 1) :
    (∀ raw hop,
      env.storeMessage recipient
        (pkt.payload.drop (sphinxPlaintextHeaderLength + surbLength)) = .ok () →
      env.newPacketFromSURB ((pkt.payload.drop 2).take surbLength)
        (List.replicate env.forwardPayloadLength 0) = .ok (raw, hop) →
      onToUser env surbLength pkt recipient
        = ⟨[(recipient,
             pkt.payload.drop (sphinxPlaintextHeaderLength + surbLength))],
           [{ raw := raw
              cmds := [.nextNodeHop hop, .nodeDelay pkt.nodeDelayDelay]
              nextNodeHopID := hop
              nodeDelayVal := pkt.nodeDelayDelay
              recvAt := pkt.recvAt
              delay := pkt.delay
              mustForward := true }]⟩ ∧
      ([RoutingCommand.nextNodeHop hop,
        RoutingCommand.nodeDelay pkt.nodeDelayDelay].filter
          RoutingCommand.isNextNodeHop).length = 1) ∧
    (∀ e, env.storeMessage recipient
        (pkt.payload.drop (sphinxPlaintextHeaderLength + surbLength))
          = .error e →
      onToUser env surbLength pkt recipient = ⟨[], []⟩) ∧
    (∀ e, env.storeMessage recipient
        (pkt.payload.drop (sphinxPlaintextHeaderLength + surbLength)) = .ok () →
      env.newPacketFromSURB ((pkt.payload.drop 2).take surbLength)
        (List.replicate env.forwardPayloadLength 0) = .error e →
      onToUser env surbLength pkt recipient
        = ⟨[(recipient,
             pkt.payload.drop (sphinxPlaintextHeaderLength + surbLength))],
           []⟩) := by
  refine ⟨?_, ?_, ?_⟩
  · intro raw hop hstore hsynth
    simp only [onToUser]
    rw [if_neg hlen, if_neg (by simpa using hres), hflags]
    simp only [onToUserStore]
    rw [hstore, hsynth]
    exact ⟨rfl, rfl⟩
  · intro e hstore
    simp only [onToUser]
    rw [if_neg hlen, if_neg (by simpa using hres), hflags]
    simp only [onToUserStore]
    rw [hstore]
  · intro e hstore hsynth
    simp only [onToUser]
    rw [if_neg hlen, if_neg (by simpa using hres), hflags]
    simp only [onToUserStore]
    rw [hstore, hsynth]

theorem claim_C3_witness :
    onToUser sampleEnv 1 ⟨[1, 0, 5, 6], 11, 22, 33⟩ [97]
      = ⟨[([97], [6])],
         [{ raw := [7]
            cmds := [.nextNodeHop [9], .nodeDelay 11]
            nextNodeHopID := [9]
            nodeDelayVal := 11
            recvAt := 22
            delay := 33
            mustForward := true }]⟩ := by
  exact ((claim_C3 sampleEnv 1 ⟨[1, 0, 5, 6], 11, 22, 33⟩ [97]
    (by decide) (by decide) (by decide)).1 [7] [9] (by rfl) (by rfl)).1

end Provider

namespace Provider

/-- Claim C5: the worker does not exit its loop when the halt signal
fires — the halt arm of the `select` lacks a `return`, so the
iteration falls through and dereferences the nil packet — and
`provider.halt` closes the user database (credential directory)
before the spool, not the spool first as claimed. -/
theorem claim_C5 :
    workerIteration (fun _ => true) WorkerEvent.haltSignal
      = IterOutcome.nilDeref ∧
    halt true true
      = [HaltAction.closeHaltCh, HaltAction.waitWorkers, HaltAction.closeCh,
         HaltAction.closeUserDB, HaltAction.closeSpool] := by
  exact ⟨rfl, rfl⟩

end Provider

namespace NodeKey

/-- Claim C9 counterexample: an identity-key file with trailing data
after a successfully decoded PEM block fails with an error, but the
decoded block's bytes (`[1, 2, 3]`, key material) are not among the
wiped buffers — only the raw file buffer is — refuting the claim that
every buffer holding decoded key bytes is explicitly overwritten. -/
theorem claim_C9_counterexample :
    (initIdentity [5, 5, 9] (some ⟨"Ed25519 PRIVATE KEY", [1, 2, 3]⟩) [9]).result
      = .err "trailing garbage" ∧
    (initIdentity [5, 5, 9] (some ⟨"Ed25519 PRIVATE KEY", [1, 2, 3]⟩) [9]).wiped
      = [[5, 5, 9]] ∧
    ¬ [1, 2, 3] ∈
      (initIdentity [5, 5, 9] (some ⟨"Ed25519 PRIVATE KEY", [1, 2, 3]⟩) [9]).wiped := by
  refine ⟨rfl, rfl, ?_⟩
  intro h
  simp [initIdentity, loadPrivateKey] at h

/-- Claim C9 (amended): loading an existing identity or link key file
fails with an error when there is trailing data after the PEM block or
when the block's type tag differs from the expected key-type string
("Ed25519 PRIVATE KEY" for the identity key, "X25519 PRIVATE KEY" for
the link key); on a successful load both the decoded block's bytes and
the raw file buffer are explicitly overwritten after use, while on the
two error paths only the raw file buffer is overwritten — the decoded
block's bytes are not. -/
theorem claim_C9 (buf : Bytes) (blk : PEMBlock) (rest : Bytes) :
    (rest ≠ [] →
      initIdentity buf (some blk) rest = ⟨.err "trailing garbage", [buf]⟩ ∧
      initLink buf (some blk) rest = ⟨.err "trailing garbage", [buf]⟩) ∧
    (rest = [] → blk.type ≠ "Ed25519 PRIVATE KEY" →
      initIdentity buf (some blk) rest = ⟨.err "invalid PEM Type", [buf]⟩) ∧
    (rest = [] → blk.type ≠ "X25519 PRIVATE KEY" →
      initLink buf (some blk) rest = ⟨.err "invalid PEM Type", [buf]⟩) ∧
    (rest = [] → blk.type = "Ed25519 PRIVATE KEY" →
      initIdentity buf (some blk) rest = ⟨.ok blk.bytes, [blk.bytes, buf]⟩) ∧
    (rest = [] → blk.type = "X25519 PRIVATE KEY" →
      initLink buf (some blk) rest = ⟨.ok blk.bytes, [blk.bytes, buf]⟩) := by
  have hrest : ∀ r : Bytes, r ≠ [] → r.length ≠ 0 := by
    intro r hr hc
    exact hr (List.length_eq_zero.mp hc)
  refine ⟨?_, ?_, ?_, ?_, ?_⟩
  · intro hr
    constructor
    · simp only [initIdentity, loadPrivateKey]
      rw [if_pos (hrest rest hr)]
    · simp only [initLink, loadPrivateKey]
      rw [if_pos (hrest rest hr)]
  · intro hr htype
    subst hr
    simp only [initIdentity, loadPrivateKey]
    rw [if_neg (by simp), if_pos htype]
  · intro hr htype
    subst hr
    simp only [initLink, loadPrivateKey]
    rw [if_neg (by simp), if_pos htype]
  · intro hr htype
    subst hr
    simp only [initIdentity, loadPrivateKey]
    rw [if_neg (by simp), if_neg (by simp [htype])]
  · intro hr htype
    subst hr
    simp only [initLink, loadPrivateKey]
    rw [if_neg (by simp), if_neg (by simp [htype])]

theorem claim_C9_witness :
    initIdentity [5, 5, 9] (some ⟨"X25519 PRIVATE KEY", [1, 2, 3]⟩) []
      = ⟨.err "invalid PEM Type", [[5, 5, 9]]⟩ ∧
    initLink [5, 5, 9] (some ⟨"X25519 PRIVATE KEY", [1, 2, 3]⟩) []
      = ⟨.ok [1, 2, 3], [[1, 2, 3], [5, 5, 9]]⟩ := by
  exact ⟨(claim_C9 [5, 5, 9] ⟨"X25519 PRIVATE KEY", [1, 2, 3]⟩ []).2.1
      rfl (by decide),
    (claim_C9 [5, 5, 9] ⟨"X25519 PRIVATE KEY", [1, 2, 3]⟩ []).2.2.2.2
      rfl rfl⟩

end NodeKey
